import Mathlib

/-!
Shallow embedding of the plan-generation core of the OrientadorPlanEstudios
repository (src/curriculum.py together with the dataset shapes of
src/courses_data.py), and proofs about the claims made by its specification.

Modelling conventions:
* Python dictionaries that are only read through `.get` with a default are
  modelled as total functions; dictionaries that are built up by assignment
  are modelled as association lists with overwrite-on-insert semantics.
* A networkx `DiGraph` is modelled by its node list (in insertion order,
  which is what iteration over `G.nodes` observes), an association list of
  node attributes, and an association list of typed edges.
* `generate_full_plan` is modelled on its heuristic path (the path taken
  when the PuLP solver is unavailable or fails); the MILP path shells out
  to an external solver process and is outside a shallow embedding.
* The float arithmetic of `estimate_remaining_semesters` is modelled
  exactly: the average `sum/10.0` (and its reduced-load variant) is kept as
  an exact fraction and the `ceil` of the division is computed on integers.
* Python's stable `list.sort` is modelled by a stable insertion sort, which
  produces the same list as any stable ascending sort.
-/

/-- Association-list lookup; the first binding of the key wins.  The insert
operation below keeps keys unique, so this matches Python dict lookup. -/
def assocLookup {α β : Type} [DecidableEq α] : List (α × β) → α → Option β
  | [], _ => none
  | (k, v) :: t, a => if k = a then some v else assocLookup t a

/-- Association-list insert with Python-dict overwrite semantics: an existing
binding of the key is replaced in place, otherwise the binding is appended. -/
def assocInsert {α β : Type} [DecidableEq α] (l : List (α × β)) (k : α) (v : β) :
    List (α × β) :=
  if l.any (fun p => decide (p.1 = k)) then
    l.map (fun p => if p.1 = k then (k, v) else p)
  else l ++ [(k, v)]

/-- Substring test on character lists: does `n` occur contiguously in the list? -/
def listContainsSub (n : List Char) : List Char → Bool
  | [] => n = []
  | c :: t => decide (n = (c :: t).take n.length) || listContainsSub n t

/-- Python's `needle in hay` substring test on strings. -/
def strContains (hay needle : String) : Bool :=
  listContainsSub needle.data hay.data

/-- Python's `hay.startswith(needle)` prefix test on strings. -/
def strStarts (hay needle : String) : Bool :=
  decide (needle.data = hay.data.take needle.data.length)

/-- Ceiling division on naturals: `natCeilDiv a b = ⌈a / b⌉` for `b > 0`. -/
def natCeilDiv (a b : Nat) : Nat := (a + b - 1) / b

/-- Insert an element into a list that is already ascending with respect to
`le`, placing it after every element it is `le`-dominated by.  Used to model
Python's stable ascending sort. -/
def stableInsert {α : Type} (le : α → α → Bool) (x : α) : List α → List α
  | [] => [x]
  | y :: ys => if le y x then y :: stableInsert le x ys else x :: y :: ys

/-- Stable ascending insertion sort; for a total preorder `le` this yields the
same list as Python's stable `list.sort`. -/
def stableSort {α : Type} (le : α → α → Bool) (l : List α) : List α :=
  l.foldl (fun acc x => stableInsert le x acc) []

/-- One record of the course dataset (`courses_data.py` shape): the values of
the optional `credits` / `semester` fields and the two dependency lists.  A
missing field is `none`; `build_curriculum_graph` reads both through `.get`
with default `0`. -/
structure CourseInfo where
  credits : Option Nat
  semester : Option Nat
  prerequisites : List String
  corerequisites : List String
deriving Repr, DecidableEq

/-- A dataset is malformed in the sense of the specification when some course
record is missing its `credits` or `semester` field. -/
def dataset_malformed (courses : List (String × CourseInfo)) : Bool :=
  courses.any (fun ci => ci.2.credits.isNone || ci.2.semester.isNone)

/-- The curriculum graph: nodes in networkx insertion order, node attributes
`(credits, semester)` (absent for nodes created only as edge endpoints), and
edges keyed by `(source, target)` carrying their `type` attribute. -/
structure Graph where
  nodes : List String
  attrs : List (String × Nat × Nat)
  edges : List ((String × String) × String)
deriving Repr, DecidableEq

/-- networkx `add_node` with `credits` and `semester` attributes: appends the
node if new (attribute update otherwise leaves the order unchanged). -/
def Graph.addNode (G : Graph) (c : String) (credits semester : Nat) : Graph :=
  { G with
    nodes := if G.nodes.contains c then G.nodes else G.nodes ++ [c]
    attrs := assocInsert G.attrs c (credits, semester) }

/-- networkx `add_edge` implicitly adds a missing endpoint as an attribute-less
node. -/
def Graph.addEndpoint (G : Graph) (c : String) : Graph :=
  { G with nodes := if G.nodes.contains c then G.nodes else G.nodes ++ [c] }

/-- networkx `add_edge(u, v, type=ty)`: both endpoints are ensured to exist,
then the `(u, v)` edge is written with its `type` attribute (overwriting the
attribute if the edge already exists). -/
def Graph.addEdge (G : Graph) (u v ty : String) : Graph :=
  let G1 := (G.addEndpoint u).addEndpoint v
  { G1 with edges := assocInsert G1.edges (u, v) ty }

/-- Embedding of `build_curriculum_graph` (curriculum.py lines 33-49): one
node per course with `credits`/`semester` read through `.get(_, 0)`, then one
`prerequisite` edge per listed prerequisite and one `corequisite` edge per
listed corequisite.  Note the function is total: a missing field defaults, it
never aborts. -/
def build_curriculum_graph (courses : List (String × CourseInfo)) : Graph :=
  courses.foldl
    (fun G ci =>
      let course := ci.1
      let info := ci.2
      let G := G.addNode course (info.credits.getD 0) (info.semester.getD 0)
      let G := info.prerequisites.foldl
        (fun G p => G.addEdge p course "prerequisite") G
      info.corerequisites.foldl
        (fun G p => G.addEdge p course "corequisite") G)
    ⟨[], [], []⟩

/-- One dataset entry's contribution to the curriculum graph (the body of the
fold in `build_curriculum_graph`). -/
def buildStep (G : Graph) (ci : String × CourseInfo) : Graph :=
  let G := G.addNode ci.1 (ci.2.credits.getD 0) (ci.2.semester.getD 0)
  let G := ci.2.prerequisites.foldl
    (fun G p => G.addEdge p ci.1 "prerequisite") G
  ci.2.corerequisites.foldl (fun G p => G.addEdge p ci.1 "corequisite") G

/-- The `type` attribute of the edge `u → v`, if the edge exists. -/
def Graph.edgeType (G : Graph) (u v : String) : Option String :=
  assocLookup G.edges (u, v)

/-- `list(G.predecessors(v))`: sources of the edges whose target is `v`. -/
def Graph.predsOf (G : Graph) (v : String) : List String :=
  (G.edges.filter (fun e => decide (e.1.2 = v))).map (fun e => e.1.1)

/-- `G.nodes[c].get("credits", 0)` (also used where the source indexes the
attribute directly, which presumes the node carries attributes). -/
def Graph.creditsD (G : Graph) (c : String) : Nat :=
  ((assocLookup G.attrs c).map (fun a => a.1)).getD 0

/-- `G.nodes[c].get("semester", 99)`. -/
def Graph.semesterD (G : Graph) (c : String) : Nat :=
  ((assocLookup G.attrs c).map (fun a => a.2)).getD 99

/-- The "mandatory name" test of `get_available_subjects` and
`recommend_subjects`: language-sequence or general-education courses. -/
def is_mandatory_name (name : String) : Bool :=
  strContains name "Inglés" || strContains name "Core Currículum" ||
    strContains name "Core Curriculum"

/-- Predecessors of `c` whose edge is not tagged `corequisite`. -/
def prereqPreds (G : Graph) (c : String) : List String :=
  (G.predsOf c).filter (fun p => !(G.edgeType p c == some "corequisite"))

/-- Predecessors of `c` whose edge is tagged `corequisite`. -/
def coreqPreds (G : Graph) (c : String) : List String :=
  (G.predsOf c).filter (fun p => G.edgeType p c == some "corequisite")

/-- The per-node step of `get_available_subjects` (curriculum.py lines 74-106):
skip approved courses, require all prerequisite predecessors approved, require
every corequisite predecessor approved or already collected, then admit the
course by the semester window — mandatory-named courses within the reference
semester go to the front, any course within the one-term lookahead is
appended. -/
def availStep (G : Graph) (approved : List String) (current : Nat)
    (acc : List String) (course : String) : List String :=
  if approved.contains course then acc
  else if !((prereqPreds G course).all (fun p => approved.contains p)) then acc
  else if !((coreqPreds G course).all
      (fun cr => approved.contains cr || acc.contains cr)) then acc
  else
    if is_mandatory_name course && decide (G.semesterD course ≤ current) then
      course :: acc
    else if G.semesterD course ≤ current + 1 then acc ++ [course]
    else acc

/-- Embedding of `get_available_subjects` (curriculum.py lines 61-108). -/
def get_available_subjects (G : Graph) (approved : List String)
    (current_semester : Nat) : List String :=
  G.nodes.foldl (availStep G approved current_semester) []

/-- The fixed name category of `get_intersemestral_options`: language-sequence
courses and Precálculo. -/
def intersemestral_name_ok (course : String) : Bool :=
  strStarts course "Inglés" || course == "Precálculo" ||
    strContains course "Inglés"

/-- Embedding of `get_intersemestral_options` (curriculum.py lines 111-128).
Note the source checks ALL predecessors (`_G.predecessors`), including
corequisite edges. -/
def get_intersemestral_options (G : Graph) (approved : List String) :
    List String :=
  G.nodes.foldl
    (fun acc course =>
      if !(intersemestral_name_ok course) then acc
      else if approved.contains course then acc
      else if (G.predsOf course).all (fun p => approved.contains p) then
        acc ++ [course]
      else acc)
    []

/-- What claim C3 describes the option finder to return: the same name
category, but with only the prerequisite predecessors required to be
completed (corequisite predecessors ignored). -/
def intersemestral_claimed (G : Graph) (approved : List String) : List String :=
  G.nodes.filter
    (fun course =>
      intersemestral_name_ok course && !(approved.contains course) &&
        (prereqPreds G course).all (fun p => approved.contains p))

/-- The greedy packing step of `recommend_subjects`: take the course when it
still fits in the credit limit. -/
def packStep (G : Graph) (credit_limit : Nat) (st : List String × Nat)
    (s : String) : List String × Nat :=
  let c := G.creditsD s
  if st.2 + c ≤ credit_limit then (st.1 ++ [s], st.2 + c) else st

/-- Embedding of `recommend_subjects` (curriculum.py lines 131-186).  Returns
`(selected_subjects, total_credits, intersemestral_credits, semester_cost)`.
The optional-course sort key `(-credits, semester)` of the stable Python sort
is realised by `stableSort` with the corresponding total preorder. -/
def recommend_subjects (G : Graph) (approved : List String)
    (current_semester : Nat) (credits_per_semester : Nat → Nat)
    (is_half_time : Bool) (intersemestral : Option String)
    (available_subjects : Option (List String)) :
    List String × Nat × Nat × Nat :=
  let available := available_subjects.getD
    (get_available_subjects G approved current_semester)
  let effective_semester := min current_semester 10
  let base_limit := credits_per_semester effective_semester
  let credit_limit :=
    if is_half_time then max 0 (base_limit / 2 - 1) else base_limit
  let mandatory := available.filter
    (fun s => strContains s "Inglés" || strContains s "Core Currículum" ||
      strContains s "Core Curriculum")
  let optional := available.filter (fun s => !(mandatory.contains s))
  let optionalSorted := stableSort
    (fun a b =>
      decide (G.creditsD b < G.creditsD a) ||
        (G.creditsD a == G.creditsD b &&
          decide (G.semesterD a ≤ G.semesterD b)))
    optional
  let afterMandatory := mandatory.foldl (packStep G credit_limit) ([], 0)
  let afterOptional := optionalSorted.foldl (packStep G credit_limit)
    afterMandatory
  let withInter :=
    match intersemestral with
    | some i =>
        if !(afterOptional.1.contains i) && G.nodes.contains i then
          (afterOptional.1 ++ [i], G.creditsD i)
        else (afterOptional.1, 0)
    | none => (afterOptional.1, 0)
  let semester_cost := (if is_half_time then 5000000 else 10000000) +
    (if intersemestral.isSome then 1500000 else 0)
  (withInter.1, afterOptional.2, withInter.2, semester_cost)

/-- `sum(G.nodes[c]["credits"] for c in l if c in G.nodes)`: credit sum of a
course list (with multiplicity, as in the source), skipping unknown names. -/
def listCreditSum (G : Graph) (l : List String) : Nat :=
  l.foldl (fun acc c => if G.nodes.contains c then acc + G.creditsD c else acc) 0

/-- Embedding of `estimate_remaining_semesters` (curriculum.py lines 189-206).
The float average `sum(cps[1..10]) / 10.0` — written `S / 10` below — and its
reduced-load variant `max(1.0, S/20 - 1.0)` are modelled exactly; the final
`max(1, ceil(remaining / avg))` becomes an exact ceiling division. -/
def estimate_remaining_semesters (G : Graph) (approved : List String)
    (total_credits_required : Nat) (credits_per_semester : Nat → Nat)
    (is_half_time : Bool) : Nat :=
  let approved_sum := listCreditSum G approved
  let remaining_credits := total_credits_required - approved_sum
  let S := ((List.range 10).map (fun i => credits_per_semester (i + 1))).foldl
    (· + ·) 0
  if is_half_time then
    -- avg = max(1, S/20 - 1); the fraction (S-20)/20 wins exactly when S > 40
    if 40 < S then max 1 (natCeilDiv (remaining_credits * 20) (S - 20))
    else max 1 remaining_credits
  else
    -- avg = S/10; the `avg <= 0` guard fires exactly when S = 0
    if S = 0 then max 1 remaining_credits
    else max 1 (natCeilDiv (remaining_credits * 10) S)

/-- The per-semester override options (`semester_options[s]` in the source):
reduced-load flag, purchased extra credits and chosen intensive session. -/
structure SemesterOptions where
  is_half_time : Bool
  extra_credits : Int
  intersemestral : Option String
deriving Repr, DecidableEq

/-- Embedding of `_build_capacity_by_semester` (curriculum.py lines 214-229):
per semester of the range, the base capacity for `min s 10`, halved minus one
and floored at zero under reduced load, plus the raw extra credits, floored at
zero. -/
def _build_capacity_by_semester (credits_per_semester : Nat → Nat)
    (semester_options : Nat → Option SemesterOptions)
    (semester_range : List Nat) : List (Nat × Int) :=
  semester_range.foldl
    (fun capacities s =>
      let base : Int := credits_per_semester (min s 10)
      let opts := semester_options s
      let cap : Int :=
        if ((opts.map (fun o => o.is_half_time)).getD false) then
          max 0 (base / 2 - 1)
        else base
      let extra : Int := (opts.map (fun o => o.extra_credits)).getD 0
      assocInsert capacities s (max 0 (cap + extra)))
    []

/-- The capacity formula claim C2 states: base capped at semester 10's value,
halved minus one floored at zero under reduced load, extra capacity clamped to
at most 1 under reduced load, and the result capped at 25 credits. -/
def capacity_claimed (credits_per_semester : Nat → Nat)
    (semester_options : Nat → Option SemesterOptions) (s : Nat) : Int :=
  let base : Int := credits_per_semester (min s 10)
  let half := ((semester_options s).map (fun o => o.is_half_time)).getD false
  let cap : Int := if half then max 0 (base / 2 - 1) else base
  let extraRaw : Int :=
    ((semester_options s).map (fun o => o.extra_credits)).getD 0
  let extra : Int := if half then min extraRaw 1 else extraRaw
  min 25 (cap + extra)

/-- The capacity formula the code actually computes, as a per-semester
function: no clamp on the extra credits and no 25-credit ceiling, only a final
floor at zero. -/
def capacity_amended (credits_per_semester : Nat → Nat)
    (semester_options : Nat → Option SemesterOptions) (s : Nat) : Int :=
  let base : Int := credits_per_semester (min s 10)
  let half := ((semester_options s).map (fun o => o.is_half_time)).getD false
  let cap : Int := if half then max 0 (base / 2 - 1) else base
  let extra : Int := ((semester_options s).map (fun o => o.extra_credits)).getD 0
  max 0 (cap + extra)

/-- One Semester Record of a generated plan (the dict appended by
`generate_full_plan`). -/
structure SemesterRecord where
  semester : Nat
  repetition : Nat
  subjects : List String
  credits : Nat
  intersemestral_credits : Nat
  is_half_time : Bool
  extra_credits : Int
  intersemestral : Option String
  cost : Nat
deriving Repr, DecidableEq

/-- The effective credit capacity of a Semester Record's term, computed from
the stored flags the way the code computes capacities: base for
`min semester 10`, halved minus one floored at zero under reduced load, plus
the record's extra credits, floored at zero. -/
def record_capacity (credits_per_semester : Nat → Nat) (r : SemesterRecord) :
    Int :=
  max 0 ((if r.is_half_time then
      max 0 ((credits_per_semester (min r.semester 10) : Int) / 2 - 1)
    else (credits_per_semester (min r.semester 10) : Int)) + r.extra_credits)

/-- The singleton list an optional intensive-session choice contributes to the
accumulated approved list (`if inter: approved_local.append(inter)`). -/
def interListOf : Option String → List String
  | some i => [i]
  | none => []

/-- The per-iteration configuration the heuristic fallback builds for one
load mode (the `best_config` dictionary). -/
structure GenConfig where
  subjects : List String
  credits : Nat
  intersemestral_credits : Nat
  semester_cost : Nat
  is_half_time : Bool
  extra_credits : Int
  intersemestral : Option String
deriving Repr, DecidableEq

/-- The mutable state of the heuristic fallback loop of `generate_full_plan`. -/
structure GenState where
  plan : List SemesterRecord
  approved : List String
  total : Nat
  sem : Nat
  cost : Nat
  counts : List (Nat × Nat)
deriving Repr, DecidableEq

/-- Python's `max(options, key=lambda s: credits(s)/1500000.0)` on a non-empty
list: the first element attaining the maximal credits (division by a positive
constant preserves the comparisons). -/
def maxByCredits (G : Graph) : List String → Option String
  | [] => none
  | x :: xs =>
      some (xs.foldl (fun b s => if G.creditsD b < G.creditsD s then s else b) x)

/-- One candidate configuration of the fallback loop (curriculum.py lines
535-555): run the greedy selector for the given load mode, then estimate the
remaining semesters from the tentatively-extended approved list and price the
whole projection. -/
def iterConfig (G : Graph) (credits_per_semester : Nat → Nat) (required : Nat)
    (approved : List String) (sem : Nat) (available : List String)
    (bestInter : Option String) (is_half_time : Bool) : GenConfig × Nat :=
  let inter := if is_half_time then bestInter else none
  let r := recommend_subjects G approved sem credits_per_semester is_half_time
    inter (some available)
  let subjects := r.1
  let credits := r.2.1
  let inter_credits := r.2.2.1
  let semester_cost := r.2.2.2
  let temp_approved := approved ++ subjects ++ interListOf inter
  let remaining := estimate_remaining_semesters G temp_approved required
    credits_per_semester is_half_time
  let projected := semester_cost +
    remaining * (if is_half_time then 5000000 else 10000000)
  (⟨subjects, credits, inter_credits, semester_cost, is_half_time, 0, inter⟩,
    projected)

/-- The winning configuration of one fallback iteration: the full-load and
reduced-load candidates are evaluated in that order and the reduced-load one
wins only with a strictly smaller projected cost. -/
def iterBest (G : Graph) (required : Nat) (credits_per_semester : Nat → Nat)
    (approved : List String) (sem : Nat) : GenConfig :=
  let available := get_available_subjects G approved sem
  let interOpts := get_intersemestral_options G approved
  let bestInter := maxByCredits G interOpts
  let cFull := iterConfig G credits_per_semester required approved sem
    available bestInter false
  let cHalf := iterConfig G credits_per_semester required approved sem
    available bestInter true
  if cHalf.2 < cFull.2 then cHalf.1 else cFull.1

/-- The fallback loop of `generate_full_plan` (curriculum.py lines 525-582),
with the `max_iterations` safety counter as structural fuel.  On a stalled
iteration (no subjects and no intensive choice) it returns the plan assembled
so far. -/
def gen_loop (G : Graph) (required : Nat) (credits_per_semester : Nat → Nat)
    (calculate_semester : Nat → Nat) :
    Nat → GenState → List SemesterRecord × Nat
  | 0, st => (st.plan, st.cost)
  | fuel + 1, st =>
    if st.total < required then
      let best := iterBest G required credits_per_semester st.approved st.sem
      if best.subjects.isEmpty && best.intersemestral.isNone then
        (st.plan, st.cost)
      else
        let reps := (assocLookup st.counts st.sem).getD 0 + 1
        let record : SemesterRecord :=
          ⟨st.sem, reps, best.subjects, best.credits,
            best.intersemestral_credits, best.is_half_time, best.extra_credits,
            best.intersemestral, best.semester_cost⟩
        let total' := st.total + best.credits + best.intersemestral_credits
        let st' : GenState :=
          ⟨st.plan ++ [record],
            st.approved ++ best.subjects ++ interListOf best.intersemestral,
            total', calculate_semester total', st.cost + best.semester_cost,
            assocInsert st.counts st.sem reps⟩
        gen_loop G required credits_per_semester calculate_semester fuel st'
    else (st.plan, st.cost)

/-- Embedding of `generate_full_plan` (curriculum.py lines 472-582) on its
heuristic path: required credits from the program name, early exit when the
approved credits already meet the requirement, then the fallback loop with the
safety cap of 30 iterations.  The per-semester override map is accepted (and
defensively copied in the source) but never read on this path. -/
def generate_full_plan (G : Graph) (approved_subjects : List String)
    (program : String) (credits_per_semester : Nat → Nat)
    (calculate_semester : Nat → Nat)
    (_semester_options : Nat → Option SemesterOptions) :
    List SemesterRecord × Nat :=
  let total_credits_approved := listCreditSum G approved_subjects
  let current_semester := calculate_semester total_credits_approved
  let total_credits_required := if program == "Fisioterapia" then 180 else 189
  if total_credits_required ≤ total_credits_approved then ([], 0)
  else
    gen_loop G total_credits_required credits_per_semester calculate_semester 30
      ⟨[], approved_subjects, total_credits_approved, current_semester, 0, []⟩

/-- The records the fallback loop appends from a given state on (the loop
above, with the plan/cost accumulators dropped); used to reason about the
generated plan by structural induction. -/
def gen_records (G : Graph) (required : Nat) (credits_per_semester : Nat → Nat)
    (calculate_semester : Nat → Nat) : Nat → GenState → List SemesterRecord
  | 0, _ => []
  | fuel + 1, st =>
    if st.total < required then
      let best := iterBest G required credits_per_semester st.approved st.sem
      if best.subjects.isEmpty && best.intersemestral.isNone then []
      else
        let reps := (assocLookup st.counts st.sem).getD 0 + 1
        let record : SemesterRecord :=
          ⟨st.sem, reps, best.subjects, best.credits,
            best.intersemestral_credits, best.is_half_time, best.extra_credits,
            best.intersemestral, best.semester_cost⟩
        let total' := st.total + best.credits + best.intersemestral_credits
        let st' : GenState :=
          ⟨st.plan ++ [record],
            st.approved ++ best.subjects ++ interListOf best.intersemestral,
            total', calculate_semester total', st.cost + best.semester_cost,
            assocInsert st.counts st.sem reps⟩
        record :: gen_records G required credits_per_semester
          calculate_semester fuel st'
    else []

/-- The stall test of one fallback iteration: the winning configuration
selected no subjects and no intensive session. -/
def stallCondB (G : Graph) (required : Nat) (credits_per_semester : Nat → Nat)
    (st : GenState) : Bool :=
  (iterBest G required credits_per_semester st.approved st.sem).subjects.isEmpty
    && (iterBest G required credits_per_semester st.approved
      st.sem).intersemestral.isNone

/-- The Semester Record one non-stalled fallback iteration appends. -/
def iterRecord (G : Graph) (required : Nat) (credits_per_semester : Nat → Nat)
    (st : GenState) : SemesterRecord :=
  let best := iterBest G required credits_per_semester st.approved st.sem
  ⟨st.sem, (assocLookup st.counts st.sem).getD 0 + 1, best.subjects,
    best.credits, best.intersemestral_credits, best.is_half_time,
    best.extra_credits, best.intersemestral, best.semester_cost⟩

/-- The loop state after one non-stalled fallback iteration. -/
def iterNext (G : Graph) (required : Nat) (credits_per_semester : Nat → Nat)
    (calculate_semester : Nat → Nat) (st : GenState) : GenState :=
  let best := iterBest G required credits_per_semester st.approved st.sem
  let total' := st.total + best.credits + best.intersemestral_credits
  ⟨st.plan ++ [iterRecord G required credits_per_semester st],
    st.approved ++ best.subjects ++ interListOf best.intersemestral,
    total', calculate_semester total', st.cost + best.semester_cost,
    assocInsert st.counts st.sem ((assocLookup st.counts st.sem).getD 0 + 1)⟩

/-- Prerequisite soundness of a plan: each record's subjects have all their
prerequisite predecessors inside the completed list accumulated strictly
before that record (initial approved courses plus subjects and intensive
choices of the earlier records). -/
def prereq_sound (G : Graph) : List String → List SemesterRecord → Bool
  | _, [] => true
  | approved, r :: rest =>
      r.subjects.all
        (fun c => (prereqPreds G c).all (fun p => approved.contains p)) &&
      prereq_sound G (approved ++ r.subjects ++ interListOf r.intersemestral)
        rest

/-- The eligibility list keeps all mandatory-on-time (front-inserted) courses
in one block before every other course: once a non-front course occurs, no
front course occurs after it. -/
def frontBlockOk (G : Graph) (ref : Nat) : List String → Bool
  | [] => true
  | x :: rest =>
      if is_mandatory_name x && decide (G.semesterD x ≤ ref) then
        frontBlockOk G ref rest
      else
        rest.all (fun y => !(is_mandatory_name y && decide (G.semesterD y ≤ ref)))

/-! ### Concrete instances used by counterexamples and witnesses -/

/-- A two-course dataset on which the fallback prefers a reduced-load term
with an intensive session: `A` (1 credit) and the language course `Inglés 1`
(2 credits), both of nominal semester 1. -/
def c1courses : List (String × CourseInfo) :=
  [("A", ⟨some 1, some 1, [], []⟩), ("Inglés 1", ⟨some 2, some 1, [], []⟩)]

/-- Curriculum graph of `c1courses`. -/
def c1G : Graph := build_curriculum_graph c1courses

/-- Capacity table giving 5 credits in semester 1 and none later. -/
def c1cps : Nat → Nat := fun s => if s = 1 then 5 else 0

/-- A dataset whose language course has a pending corequisite: `Inglés 9`
has the corequisite predecessor `C`. -/
def c3courses : List (String × CourseInfo) :=
  [("C", ⟨some 1, some 1, [], []⟩), ("Inglés 9", ⟨some 2, some 1, [], ["C"]⟩)]

/-- Curriculum graph of `c3courses`. -/
def c3G : Graph := build_curriculum_graph c3courses

/-- A single 8-credit course of nominal semester 1. -/
def c8courses : List (String × CourseInfo) := [("A", ⟨some 8, some 1, [], []⟩)]

/-- Curriculum graph of `c8courses`. -/
def c8G : Graph := build_curriculum_graph c8courses

/-- Constant capacity table of 8 credits per semester. -/
def c8cps : Nat → Nat := fun _ => 8

/-- A reduced-load override for semester 1 and nothing else. -/
def c8opts : Nat → Option SemesterOptions :=
  fun s => if s = 1 then some ⟨true, 0, none⟩ else none

/-- The single full-load record the fallback produces on `c8G` with an empty
approved set. -/
def c8rec : SemesterRecord := ⟨1, 1, ["A"], 8, 0, false, 0, none, 10000000⟩

/-- Constant capacity table of 19 credits per semester. -/
def c2cps : Nat → Nat := fun _ => 19

/-- An override buying 10 extra credits in semester 1 at full load. -/
def c2opts : Nat → Option SemesterOptions :=
  fun s => if s = 1 then some ⟨false, 10, none⟩ else none

/-- A malformed dataset: course `X` is missing both its `credits` and its
`semester` field. -/
def c9bad : List (String × CourseInfo) := [("X", ⟨none, none, [], []⟩)]

/-- A well-formed one-course dataset with one prerequisite reference. -/
def c9ok : List (String × CourseInfo) := [("B", ⟨some 2, some 1, ["Q"], []⟩)]

/-- The empty curriculum graph. -/
def graphEmpty : Graph := ⟨[], [], []⟩

/-- A loop state over the empty graph for the stall witness. -/
def c5st0 : GenState := ⟨[], [], 0, 1, 0, []⟩

/-- The credit limit `recommend_subjects` enforces for its regular (non
intensive-session) selection. -/
def recommend_limit (credits_per_semester : Nat → Nat) (current_semester : Nat)
    (is_half_time : Bool) : Nat :=
  if is_half_time then
    max 0 (credits_per_semester (min current_semester 10) / 2 - 1)
  else credits_per_semester (min current_semester 10)

set_option maxRecDepth 40000

/-! ### Association-list lemmas -/

theorem assocLookup_cons {α β : Type} [DecidableEq α] (p : α × β)
    (t : List (α × β)) (a : α) :
    assocLookup (p :: t) a = if p.1 = a then some p.2 else assocLookup t a := by
  obtain ⟨k, v⟩ := p
  rfl

theorem assocLookup_insert_self {α β : Type} [DecidableEq α]
    (l : List (α × β)) (k : α) (v : β) :
    assocLookup (assocInsert l k v) k = some v := by
  unfold assocInsert
  split
  · rename_i hany
    induction l with
    | nil => simp at hany
    | cons p t ih =>
      rw [List.map_cons]
      by_cases hp : p.1 = k
      · rw [if_pos hp, assocLookup_cons]
        simp
      · rw [if_neg hp, assocLookup_cons, if_neg hp]
        apply ih
        simp only [List.any_cons, Bool.or_eq_true, decide_eq_true_eq] at hany
        rcases hany with h | h
        · exact absurd h hp
        · exact h
  · rename_i hany
    induction l with
    | nil => simp [assocLookup]
    | cons p t ih =>
      have hp : ¬ p.1 = k := by
        intro h
        exact hany (by simp [List.any_cons, h])
      rw [List.cons_append, assocLookup_cons, if_neg hp]
      apply ih
      intro h
      apply hany
      simp only [List.any_cons, Bool.or_eq_true]
      exact Or.inr h

theorem assocLookup_insert_ne {α β : Type} [DecidableEq α]
    (l : List (α × β)) (k : α) (v : β) (k' : α) (hne : ¬ k = k') :
    assocLookup (assocInsert l k v) k' = assocLookup l k' := by
  unfold assocInsert
  split
  · rename_i hany
    clear hany
    induction l with
    | nil => simp
    | cons p t ih =>
      rw [List.map_cons]
      by_cases hp : p.1 = k
      · rw [if_pos hp, assocLookup_cons, assocLookup_cons, if_neg hne,
          if_neg (by rw [hp]; exact hne)]
        exact ih
      · rw [if_neg hp, assocLookup_cons, assocLookup_cons]
        by_cases hp' : p.1 = k'
        · rw [if_pos hp', if_pos hp']
        · rw [if_neg hp', if_neg hp']
          exact ih
  · rename_i hany
    clear hany
    induction l with
    | nil => simp [assocLookup, if_neg hne]
    | cons p t ih =>
      rw [List.cons_append, assocLookup_cons, assocLookup_cons]
      by_cases hp' : p.1 = k'
      · rw [if_pos hp', if_pos hp']
      · rw [if_neg hp', if_neg hp']
        exact ih

/-! ### List membership helpers -/

theorem contains_true_iff (l : List String) (a : String) :
    l.contains a = true ↔ a ∈ l := by simp

theorem stableInsert_mem {α : Type} (le : α → α → Bool) (x : α) (l : List α)
    (a : α) : a ∈ stableInsert le x l ↔ a = x ∨ a ∈ l := by
  induction l with
  | nil => simp [stableInsert]
  | cons y ys ih =>
    simp only [stableInsert]
    split
    · simp only [List.mem_cons, ih]
      tauto
    · simp only [List.mem_cons]

theorem foldl_stableInsert_mem {α : Type} (le : α → α → Bool) (a : α) :
    ∀ (l : List α) (acc : List α),
      a ∈ l.foldl (fun acc x => stableInsert le x acc) acc ↔ a ∈ acc ∨ a ∈ l
  | [], acc => by simp
  | y :: ys, acc => by
    rw [List.foldl_cons, foldl_stableInsert_mem le a ys, stableInsert_mem]
    simp only [List.mem_cons]
    tauto

theorem stableSort_mem {α : Type} (le : α → α → Bool) (l : List α) (a : α) :
    a ∈ stableSort le l ↔ a ∈ l := by
  rw [stableSort, foldl_stableInsert_mem]
  simp

theorem pack_total_le (G : Graph) (limit : Nat) :
    ∀ (l : List String) (st : List String × Nat), st.2 ≤ limit →
      (l.foldl (packStep G limit) st).2 ≤ limit
  | [], _, h => h
  | s :: t, st, h => by
    rw [List.foldl_cons]
    apply pack_total_le G limit t
    simp only [packStep]
    split
    · rename_i hfits
      exact hfits
    · exact h

theorem pack_mem (G : Graph) (limit : Nat) :
    ∀ (l : List String) (st : List String × Nat) (x : String),
      x ∈ (l.foldl (packStep G limit) st).1 → x ∈ st.1 ∨ x ∈ l
  | [], _, _, h => Or.inl h
  | s :: t, st, x, h => by
    rw [List.foldl_cons] at h
    rcases pack_mem G limit t _ x h with h1 | h1
    · simp only [packStep] at h1
      split at h1
      · rcases List.mem_append.mp h1 with h2 | h2
        · exact Or.inl h2
        · simp only [List.mem_singleton] at h2
          exact Or.inr (by simp [h2])
      · exact Or.inl h1
    · exact Or.inr (List.mem_cons_of_mem _ h1)

theorem foldl_pick_mem (G : Graph) :
    ∀ (xs : List String) (b : String),
      xs.foldl (fun b s => if G.creditsD b < G.creditsD s then s else b) b ∈
        b :: xs
  | [], b => by simp
  | x :: t, b => by
    rw [List.foldl_cons]
    have h := foldl_pick_mem G t (if G.creditsD b < G.creditsD x then x else b)
    rcases List.mem_cons.mp h with h1 | h1
    · rw [h1]
      split
      · simp
      · simp
    · simp only [List.mem_cons]
      tauto

theorem maxByCredits_mem (G : Graph) (l : List String) (c : String)
    (h : maxByCredits G l = some c) : c ∈ l := by
  cases l with
  | nil => simp [maxByCredits] at h
  | cons x xs =>
    simp only [maxByCredits, Option.some.injEq] at h
    rw [← h]
    exact foldl_pick_mem G xs x

theorem all_filter_of_all {α : Type} (p q : α → Bool) (l : List α)
    (h : l.all q = true) : (l.filter p).all q = true := by
  simp only [List.all_eq_true] at h ⊢
  intro x hx
  exact h x (List.mem_filter.mp hx).1

/-! ### The intensive-session option finder as a filter -/

theorem inter_step_eq (G : Graph) (approved : List String) (acc : List String)
    (c : String) :
    (if !(intersemestral_name_ok c) then acc
     else if approved.contains c then acc
     else if (G.predsOf c).all (fun p => approved.contains p) then acc ++ [c]
     else acc)
    = (if (intersemestral_name_ok c && !(approved.contains c) &&
          (G.predsOf c).all (fun p => approved.contains p)) then acc ++ [c]
       else acc) := by
  cases h1 : intersemestral_name_ok c <;>
    cases h2 : approved.contains c <;>
      cases h3 : (G.predsOf c).all (fun p => approved.contains p) <;>
        simp [h1, h2, h3]

theorem inter_fold (G : Graph) (approved : List String) :
    ∀ (l : List String) (acc : List String),
      l.foldl
        (fun acc course =>
          if !(intersemestral_name_ok course) then acc
          else if approved.contains course then acc
          else if (G.predsOf course).all (fun p => approved.contains p) then
            acc ++ [course]
          else acc) acc
      = acc ++ l.filter
          (fun course =>
            intersemestral_name_ok course && !(approved.contains course) &&
              (G.predsOf course).all (fun p => approved.contains p))
  | [], acc => by simp
  | c :: t, acc => by
    rw [List.foldl_cons, inter_step_eq, inter_fold G approved t,
      List.filter_cons]
    split
    · simp [List.append_assoc]
    · rfl

theorem inter_options_eq_filter (G : Graph) (approved : List String) :
    get_intersemestral_options G approved =
      G.nodes.filter
        (fun course =>
          intersemestral_name_ok course && !(approved.contains course) &&
            (G.predsOf course).all (fun p => approved.contains p)) := by
  have h := inter_fold G approved G.nodes []
  simpa [get_intersemestral_options] using h

theorem inter_options_preds (G : Graph) (approved : List String) (c : String)
    (h : c ∈ get_intersemestral_options G approved) :
    (G.predsOf c).all (fun p => approved.contains p) = true := by
  rw [inter_options_eq_filter] at h
  have h2 := (List.mem_filter.mp h).2
  simp only [Bool.and_eq_true] at h2
  exact h2.2

theorem inter_options_prereq (G : Graph) (approved : List String) (c : String)
    (h : c ∈ get_intersemestral_options G approved) :
    (prereqPreds G c).all (fun p => approved.contains p) = true :=
  all_filter_of_all _ _ _ (inter_options_preds G approved c h)

/-! ### Eligibility-resolver lemmas -/

theorem availStep_mono (G : Graph) (app : List String) (cur : Nat)
    (acc : List String) (c x : String) (h : x ∈ acc) :
    x ∈ availStep G app cur acc c := by
  unfold availStep
  split
  · exact h
  · split
    · exact h
    · split
      · exact h
      · split
        · exact List.mem_cons_of_mem _ h
        · split
          · exact List.mem_append_left _ h
          · exact h

theorem avail_fold_mono (G : Graph) (app : List String) (cur : Nat) :
    ∀ (l : List String) (acc : List String) (x : String),
      x ∈ acc → x ∈ l.foldl (availStep G app cur) acc
  | [], _, _, h => h
  | c :: t, acc, x, h => by
    rw [List.foldl_cons]
    exact avail_fold_mono G app cur t _ x (availStep_mono G app cur acc c x h)

theorem all_contains_lift (app acc L : List String)
    (hsub : ∀ y, y ∈ acc → y ∈ L) (l : List String)
    (h : l.all (fun p => app.contains p || acc.contains p) = true) :
    l.all (fun p => app.contains p || L.contains p) = true := by
  simp only [List.all_eq_true, Bool.or_eq_true] at h ⊢
  intro x hx
  rcases h x hx with h1 | h1
  · exact Or.inl h1
  · refine Or.inr ?_
    rw [contains_true_iff] at h1 ⊢
    exact hsub x h1

theorem not_not_bool {b : Bool} (h : ¬((!b) = true)) : b = true := by
  cases hb : b
  · exact absurd (by simp [hb]) h
  · rfl

theorem avail_fold_sound (G : Graph) (app : List String) (cur : Nat) :
    ∀ (l : List String) (acc : List String) (x : String),
      x ∈ l.foldl (availStep G app cur) acc →
      x ∈ acc ∨
        ((prereqPreds G x).all (fun p => app.contains p) = true ∧
          (coreqPreds G x).all
            (fun p => app.contains p ||
              (l.foldl (availStep G app cur) acc).contains p) = true ∧
          ((is_mandatory_name x && decide (G.semesterD x ≤ cur)) = true ∨
            G.semesterD x ≤ cur + 1))
  | [], _, _, h => Or.inl h
  | c :: t, acc, x, h => by
    rw [List.foldl_cons] at h ⊢
    have hsub : ∀ y, y ∈ acc →
        y ∈ t.foldl (availStep G app cur) (availStep G app cur acc c) :=
      fun y hy =>
        avail_fold_mono G app cur t _ y (availStep_mono G app cur acc c y hy)
    rcases avail_fold_sound G app cur t (availStep G app cur acc c) x h
      with h1 | h1
    · unfold availStep at h1
      split at h1
      · exact Or.inl h1
      · split at h1
        · exact Or.inl h1
        · split at h1
          · exact Or.inl h1
          · rename_i hc hpre hcore
            split at h1
            · rename_i hfront
              rcases List.mem_cons.mp h1 with rfl | hmem
              · refine Or.inr ⟨not_not_bool hpre, ?_, Or.inl hfront⟩
                exact all_contains_lift app acc _ hsub _ (not_not_bool hcore)
              · exact Or.inl hmem
            · split at h1
              · rename_i hfront hsem
                rcases List.mem_append.mp h1 with hmem | hx
                · exact Or.inl hmem
                · simp only [List.mem_singleton] at hx
                  subst hx
                  refine Or.inr ⟨not_not_bool hpre, ?_, Or.inr hsem⟩
                  exact all_contains_lift app acc _ hsub _
                    (not_not_bool hcore)
              · exact Or.inl h1
    · exact Or.inr h1

theorem frontBlockOk_cons_front (G : Graph) (ref : Nat) (x : String)
    (acc : List String)
    (hx : (is_mandatory_name x && decide (G.semesterD x ≤ ref)) = true)
    (h : frontBlockOk G ref acc = true) :
    frontBlockOk G ref (x :: acc) = true := by
  simp only [frontBlockOk]
  rw [if_pos hx]
  exact h

theorem frontBlockOk_append (G : Graph) (ref : Nat) :
    ∀ (acc : List String) (x : String),
      frontBlockOk G ref acc = true →
      (is_mandatory_name x && decide (G.semesterD x ≤ ref)) = false →
      frontBlockOk G ref (acc ++ [x]) = true
  | [], x, _, hx => by
    simp only [List.nil_append, frontBlockOk]
    rw [if_neg (by simp [hx])]
    simp [hx]
  | y :: t, x, h, hx => by
    rw [List.cons_append]
    simp only [frontBlockOk] at h ⊢
    by_cases hy : (is_mandatory_name y && decide (G.semesterD y ≤ ref)) = true
    · rw [if_pos hy] at h ⊢
      exact frontBlockOk_append G ref t x h hx
    · rw [if_neg hy] at h ⊢
      simp only [List.all_append, h, List.all_cons, List.all_nil,
        Bool.and_true, Bool.true_and]
      simp [hx]

theorem avail_fold_front (G : Graph) (app : List String) (cur : Nat) :
    ∀ (l acc : List String),
      frontBlockOk G cur acc = true →
      frontBlockOk G cur (l.foldl (availStep G app cur) acc) = true
  | [], _, h => h
  | c :: t, acc, h => by
    rw [List.foldl_cons]
    apply avail_fold_front G app cur t
    unfold availStep
    split
    · exact h
    · split
      · exact h
      · split
        · exact h
        · split
          · rename_i hfront
            exact frontBlockOk_cons_front G cur c acc hfront h
          · split
            · rename_i hfront _
              exact frontBlockOk_append G cur acc c h (by simpa using hfront)
            · exact h

/-! ### Selector lemmas -/

theorem pack_chain_mem (G : Graph) (limit : Nat) (l1 l2 : List String)
    (c : String)
    (h : c ∈ (l2.foldl (packStep G limit)
      (l1.foldl (packStep G limit) ([], 0))).1) :
    c ∈ l1 ∨ c ∈ l2 := by
  rcases pack_mem G limit l2 _ c h with h1 | h1
  · rcases pack_mem G limit l1 _ c h1 with h2 | h2
    · simp at h2
    · exact Or.inl h2
  · exact Or.inr h1

theorem sel_append_mem {P : Prop} [Decidable P] (l : List String)
    (i c : String) (x : Nat)
    (h : c ∈ (if P then (l ++ [i], x) else (l, (0 : Nat))).1) :
    c ∈ l ∨ c = i := by
  split at h
  · rcases List.mem_append.mp h with h1 | h1
    · exact Or.inl h1
    · simp only [List.mem_singleton] at h1
      exact Or.inr h1
  · exact Or.inl h

theorem recommend_sel_mem (G : Graph) (app : List String) (cur : Nat)
    (cps : Nat → Nat) (half : Bool) (inter : Option String)
    (avail : List String) (c : String)
    (h : c ∈ (recommend_subjects G app cur cps half inter (some avail)).1) :
    c ∈ avail ∨ inter = some c := by
  cases inter with
  | none =>
    left
    simp only [recommend_subjects, Option.getD_some] at h
    rcases pack_chain_mem G _ _ _ c h with h1 | h1
    · exact (List.mem_filter.mp h1).1
    · rw [stableSort_mem] at h1
      exact (List.mem_filter.mp h1).1
  | some i =>
    simp only [recommend_subjects, Option.getD_some] at h
    rcases sel_append_mem _ i c _ h with h1 | h1
    · rcases pack_chain_mem G _ _ _ c h1 with h2 | h2
      · exact Or.inl (List.mem_filter.mp h2).1
      · rw [stableSort_mem] at h2
        exact Or.inl (List.mem_filter.mp h2).1
    · exact Or.inr (by rw [h1])

theorem recommend_credits_le (G : Graph) (app : List String) (cur : Nat)
    (cps : Nat → Nat) (half : Bool) (inter : Option String)
    (availOpt : Option (List String)) :
    (recommend_subjects G app cur cps half inter availOpt).2.1 ≤
      recommend_limit cps cur half := by
  unfold recommend_subjects recommend_limit
  exact pack_total_le G _ _ _ (pack_total_le G _ _ _ (Nat.zero_le _))

/-! ### Per-iteration configuration lemmas -/

theorem iterBest_eq_or (G : Graph) (req : Nat) (cps : Nat → Nat)
    (app : List String) (sem : Nat) :
    iterBest G req cps app sem =
      (iterConfig G cps req app sem (get_available_subjects G app sem)
        (maxByCredits G (get_intersemestral_options G app)) false).1 ∨
    iterBest G req cps app sem =
      (iterConfig G cps req app sem (get_available_subjects G app sem)
        (maxByCredits G (get_intersemestral_options G app)) true).1 := by
  unfold iterBest
  dsimp only
  split
  · exact Or.inr rfl
  · exact Or.inl rfl

theorem iterBest_extra (G : Graph) (req : Nat) (cps : Nat → Nat)
    (app : List String) (sem : Nat) :
    (iterBest G req cps app sem).extra_credits = 0 := by
  rcases iterBest_eq_or G req cps app sem with h | h <;> rw [h] <;> rfl

theorem iterBest_half_of_inter (G : Graph) (req : Nat) (cps : Nat → Nat)
    (app : List String) (sem : Nat) (c : String)
    (h : (iterBest G req cps app sem).intersemestral = some c) :
    (iterBest G req cps app sem).is_half_time = true := by
  rcases iterBest_eq_or G req cps app sem with he | he <;> rw [he] at h ⊢
  · exact Option.noConfusion h
  · rfl

theorem iterBest_inter_opts (G : Graph) (req : Nat) (cps : Nat → Nat)
    (app : List String) (sem : Nat) (c : String)
    (h : (iterBest G req cps app sem).intersemestral = some c) :
    c ∈ get_intersemestral_options G app := by
  rcases iterBest_eq_or G req cps app sem with he | he <;> rw [he] at h
  · exact Option.noConfusion h
  · exact maxByCredits_mem G _ c h

theorem iterBest_subjects_mem (G : Graph) (req : Nat) (cps : Nat → Nat)
    (app : List String) (sem : Nat) (c : String)
    (h : c ∈ (iterBest G req cps app sem).subjects) :
    c ∈ get_available_subjects G app sem ∨
      (iterBest G req cps app sem).intersemestral = some c := by
  rcases iterBest_eq_or G req cps app sem with he | he <;> rw [he] at h ⊢
  · exact recommend_sel_mem G app sem cps false none
      (get_available_subjects G app sem) c h
  · exact recommend_sel_mem G app sem cps true
      (maxByCredits G (get_intersemestral_options G app))
      (get_available_subjects G app sem) c h

theorem iterBest_credits_le (G : Graph) (req : Nat) (cps : Nat → Nat)
    (app : List String) (sem : Nat) :
    (iterBest G req cps app sem).credits ≤
      recommend_limit cps sem (iterBest G req cps app sem).is_half_time := by
  rcases iterBest_eq_or G req cps app sem with he | he <;> rw [he]
  · exact recommend_credits_le G app sem cps false none
      (some (get_available_subjects G app sem))
  · exact recommend_credits_le G app sem cps true
      (maxByCredits G (get_intersemestral_options G app))
      (some (get_available_subjects G app sem))

/-! ### Driver-loop lemmas -/

theorem gen_loop_succ (G : Graph) (req : Nat) (cps cal : Nat → Nat)
    (fuel : Nat) (st : GenState) :
    gen_loop G req cps cal (fuel + 1) st =
      if st.total < req then
        if stallCondB G req cps st = true then (st.plan, st.cost)
        else gen_loop G req cps cal fuel (iterNext G req cps cal st)
      else (st.plan, st.cost) := rfl

theorem gen_records_succ (G : Graph) (req : Nat) (cps cal : Nat → Nat)
    (fuel : Nat) (st : GenState) :
    gen_records G req cps cal (fuel + 1) st =
      if st.total < req then
        if stallCondB G req cps st = true then []
        else iterRecord G req cps st ::
          gen_records G req cps cal fuel (iterNext G req cps cal st)
      else [] := rfl

theorem generate_full_plan_eq (G : Graph) (approved : List String)
    (program : String) (cps cal : Nat → Nat)
    (opts : Nat → Option SemesterOptions) :
    generate_full_plan G approved program cps cal opts =
      (if (if program == "Fisioterapia" then 180 else 189) ≤
          listCreditSum G approved
       then ([], 0)
       else gen_loop G (if program == "Fisioterapia" then 180 else 189) cps cal
         30 ⟨[], approved, listCreditSum G approved,
           cal (listCreditSum G approved), 0, []⟩) := rfl

theorem gen_plan_eq (G : Graph) (req : Nat) (cps cal : Nat → Nat) :
    ∀ (fuel : Nat) (st : GenState),
      (gen_loop G req cps cal fuel st).1 =
        st.plan ++ gen_records G req cps cal fuel st
  | 0, st => by simp [gen_loop, gen_records]
  | fuel + 1, st => by
    rw [gen_loop_succ, gen_records_succ]
    by_cases hlt : st.total < req
    · rw [if_pos hlt, if_pos hlt]
      by_cases hstall : stallCondB G req cps st = true
      · rw [if_pos hstall, if_pos hstall]
        simp
      · rw [if_neg hstall, if_neg hstall,
          gen_plan_eq G req cps cal fuel (iterNext G req cps cal st)]
        show (st.plan ++ [iterRecord G req cps st]) ++ _ =
          st.plan ++ (iterRecord G req cps st :: _)
        rw [List.append_assoc, List.singleton_append]
    · rw [if_neg hlt, if_neg hlt]
      simp

theorem gen_records_len (G : Graph) (req : Nat) (cps cal : Nat → Nat) :
    ∀ (fuel : Nat) (st : GenState),
      (gen_records G req cps cal fuel st).length ≤ fuel
  | 0, _ => by simp [gen_records]
  | fuel + 1, st => by
    rw [gen_records_succ]
    by_cases hlt : st.total < req
    · rw [if_pos hlt]
      by_cases hstall : stallCondB G req cps st = true
      · rw [if_pos hstall]
        simp
      · rw [if_neg hstall]
        simp only [List.length_cons]
        exact Nat.succ_le_succ (gen_records_len G req cps cal fuel _)
    · rw [if_neg hlt]
      simp

theorem gen_loop_stall (G : Graph) (req : Nat) (cps cal : Nat → Nat)
    (fuel : Nat) (st : GenState)
    (h1 : (iterBest G req cps st.approved st.sem).subjects = [])
    (h2 : (iterBest G req cps st.approved st.sem).intersemestral = none) :
    gen_loop G req cps cal (fuel + 1) st = (st.plan, st.cost) := by
  rw [gen_loop_succ]
  by_cases hlt : st.total < req
  · rw [if_pos hlt, if_pos (show stallCondB G req cps st = true by
      unfold stallCondB
      rw [h1, h2]
      rfl)]
  · rw [if_neg hlt]

theorem avail_prereq (G : Graph) (app : List String) (sem : Nat) (c : String)
    (h : c ∈ get_available_subjects G app sem) :
    (prereqPreds G c).all (fun p => app.contains p) = true := by
  rcases avail_fold_sound G app sem G.nodes [] c h with h1 | h1
  · simp at h1
  · exact h1.1

theorem gen_records_sound (G : Graph) (req : Nat) (cps cal : Nat → Nat) :
    ∀ (fuel : Nat) (st : GenState),
      prereq_sound G st.approved (gen_records G req cps cal fuel st) = true
  | 0, _ => by simp [gen_records, prereq_sound]
  | fuel + 1, st => by
    rw [gen_records_succ]
    by_cases hlt : st.total < req
    · rw [if_pos hlt]
      by_cases hstall : stallCondB G req cps st = true
      · rw [if_pos hstall]
        rfl
      · rw [if_neg hstall]
        simp only [prereq_sound, Bool.and_eq_true]
        constructor
        · rw [List.all_eq_true]
          intro c hc
          rcases iterBest_subjects_mem G req cps st.approved st.sem c hc
            with hav | hint
          · exact avail_prereq G st.approved st.sem c hav
          · exact inter_options_prereq G st.approved c
              (iterBest_inter_opts G req cps st.approved st.sem c hint)
        · exact gen_records_sound G req cps cal fuel (iterNext G req cps cal st)
    · rw [if_neg hlt]
      rfl

theorem gen_records_flags (G : Graph) (req : Nat) (cps cal : Nat → Nat) :
    ∀ (fuel : Nat) (st : GenState),
      (gen_records G req cps cal fuel st).all
        (fun r => (r.extra_credits == 0) &&
          (r.intersemestral.isNone || r.is_half_time)) = true
  | 0, _ => by simp [gen_records]
  | fuel + 1, st => by
    rw [gen_records_succ]
    by_cases hlt : st.total < req
    · rw [if_pos hlt]
      by_cases hstall : stallCondB G req cps st = true
      · rw [if_pos hstall]
        rfl
      · rw [if_neg hstall]
        simp only [List.all_cons, Bool.and_eq_true]
        refine ⟨⟨?_, ?_⟩, gen_records_flags G req cps cal fuel _⟩
        · show ((iterBest G req cps st.approved st.sem).extra_credits == 0)
            = true
          rw [iterBest_extra G req cps st.approved st.sem]
          rfl
        · show ((iterBest G req cps st.approved st.sem).intersemestral.isNone
            || (iterBest G req cps st.approved st.sem).is_half_time) = true
          cases ho : (iterBest G req cps st.approved st.sem).intersemestral with
          | none => rfl
          | some c =>
            rw [iterBest_half_of_inter G req cps st.approved st.sem c ho]
            simp
    · rw [if_neg hlt]
      rfl

theorem natIntCap (b : Nat) (h : Bool) :
    ((if h then max 0 (b / 2 - 1) else b : Nat) : Int) =
      max 0 ((if h then max 0 ((b : Int) / 2 - 1) else (b : Int)) + 0) := by
  cases h
  · simp
  · simp only [if_pos]
    have hb : ((b / 2 : Nat) : Int) = (b : Int) / 2 := by
      simp [Int.ofNat_ediv]
    omega

theorem record_cap_of_limit (cps : Nat → Nat) (r : SemesterRecord)
    (hextra : r.extra_credits = 0)
    (hcred : r.credits ≤ recommend_limit cps r.semester r.is_half_time) :
    (r.credits : Int) ≤ record_capacity cps r := by
  unfold record_capacity
  rw [hextra, ← natIntCap (cps (min r.semester 10)) r.is_half_time]
  exact_mod_cast hcred

theorem gen_records_cap (G : Graph) (req : Nat) (cps cal : Nat → Nat) :
    ∀ (fuel : Nat) (st : GenState) (r : SemesterRecord),
      r ∈ gen_records G req cps cal fuel st →
      (r.credits : Int) ≤ record_capacity cps r
  | 0, _, r, h => by simp [gen_records] at h
  | fuel + 1, st, r, h => by
    rw [gen_records_succ] at h
    by_cases hlt : st.total < req
    · rw [if_pos hlt] at h
      by_cases hstall : stallCondB G req cps st = true
      · rw [if_pos hstall] at h
        simp at h
      · rw [if_neg hstall] at h
        rcases List.mem_cons.mp h with rfl | hmem
        · apply record_cap_of_limit
          · exact iterBest_extra G req cps st.approved st.sem
          · exact iterBest_credits_le G req cps st.approved st.sem
        · exact gen_records_cap G req cps cal fuel _ r hmem
    · rw [if_neg hlt] at h
      simp at h

/-! ### Graph-builder lemmas -/

theorem build_eq_foldl (courses : List (String × CourseInfo)) :
    build_curriculum_graph courses = courses.foldl buildStep ⟨[], [], []⟩ := rfl

theorem mem_nodes_addNode (g : Graph) (c : String) (cr sem : Nat) (x : String)
    (h : x ∈ g.nodes) : x ∈ (g.addNode c cr sem).nodes := by
  show x ∈ (if g.nodes.contains c then g.nodes else g.nodes ++ [c])
  split
  · exact h
  · exact List.mem_append_left _ h

theorem self_mem_nodes_addNode (g : Graph) (c : String) (cr sem : Nat) :
    c ∈ (g.addNode c cr sem).nodes := by
  show c ∈ (if g.nodes.contains c then g.nodes else g.nodes ++ [c])
  split
  · rename_i hc
    exact (contains_true_iff g.nodes c).mp hc
  · exact List.mem_append_right _ (List.mem_singleton.mpr rfl)

theorem mem_nodes_addEdge (g : Graph) (u v ty : String) (x : String)
    (h : x ∈ g.nodes) : x ∈ (g.addEdge u v ty).nodes := by
  show x ∈ (((g.addEndpoint u).addEndpoint v).nodes)
  show x ∈ (if (g.addEndpoint u).nodes.contains v then (g.addEndpoint u).nodes
    else (g.addEndpoint u).nodes ++ [v])
  have h1 : x ∈ (g.addEndpoint u).nodes := by
    show x ∈ (if g.nodes.contains u then g.nodes else g.nodes ++ [u])
    split
    · exact h
    · exact List.mem_append_left _ h
  split
  · exact h1
  · exact List.mem_append_left _ h1

theorem mem_nodes_edgefold (course ty : String) :
    ∀ (l : List String) (g : Graph) (x : String), x ∈ g.nodes →
      x ∈ (l.foldl (fun G p => G.addEdge p course ty) g).nodes
  | [], _, _, h => h
  | a :: t, g, x, h => by
    rw [List.foldl_cons]
    exact mem_nodes_edgefold course ty t _ x (mem_nodes_addEdge g a course ty x h)

theorem mem_nodes_buildStep (g : Graph) (e : String × CourseInfo) (x : String)
    (h : x ∈ g.nodes) : x ∈ (buildStep g e).nodes := by
  unfold buildStep
  exact mem_nodes_edgefold _ _ _ _ x
    (mem_nodes_edgefold _ _ _ _ x (mem_nodes_addNode g e.1 _ _ x h))

theorem mem_nodes_buildfold :
    ∀ (l : List (String × CourseInfo)) (g : Graph) (x : String), x ∈ g.nodes →
      x ∈ (l.foldl buildStep g).nodes
  | [], _, _, h => h
  | e :: t, g, x, h => by
    rw [List.foldl_cons]
    exact mem_nodes_buildfold t _ x (mem_nodes_buildStep g e x h)

theorem attrs_addEdge (g : Graph) (u v ty : String) :
    (g.addEdge u v ty).attrs = g.attrs := rfl

theorem attrs_edgefold (course ty : String) :
    ∀ (l : List String) (g : Graph),
      (l.foldl (fun G p => G.addEdge p course ty) g).attrs = g.attrs
  | [], _ => rfl
  | a :: t, g => by
    rw [List.foldl_cons]
    rw [attrs_edgefold course ty t]
    rfl

theorem attrs_buildStep (g : Graph) (e : String × CourseInfo) :
    (buildStep g e).attrs =
      assocInsert g.attrs e.1 (e.2.credits.getD 0, e.2.semester.getD 0) := by
  unfold buildStep
  rw [attrs_edgefold, attrs_edgefold]
  rfl

theorem attrs_buildfold_other (c : String) :
    ∀ (l : List (String × CourseInfo)) (g : Graph),
      (∀ e ∈ l, ¬ e.1 = c) →
      assocLookup (l.foldl buildStep g).attrs c = assocLookup g.attrs c
  | [], _, _ => rfl
  | e :: t, g, hl => by
    rw [List.foldl_cons]
    rw [attrs_buildfold_other c t _ (fun x hx => hl x (List.mem_cons_of_mem _ hx))]
    rw [attrs_buildStep]
    exact assocLookup_insert_ne _ _ _ _ (hl e (List.mem_cons_self _ _))

theorem edges_addNode (g : Graph) (c : String) (cr sem : Nat) :
    (g.addNode c cr sem).edges = g.edges := rfl

theorem edgeType_addEdge (g : Graph) (u v ty p c : String) :
    (g.addEdge u v ty).edgeType p c =
      if (u, v) = (p, c) then some ty else g.edgeType p c := by
  unfold Graph.addEdge Graph.edgeType
  by_cases h : (u, v) = (p, c)
  · rw [if_pos h]
    obtain ⟨h1, h2⟩ := Prod.mk.injEq u v p c ▸ h
    subst h1
    subst h2
    exact assocLookup_insert_self _ _ _
  · rw [if_neg h]
    exact assocLookup_insert_ne _ _ _ _ h

theorem edgeType_edgefold_target (course ty : String) :
    ∀ (l : List String) (g : Graph) (q : String),
      (l.foldl (fun G p => G.addEdge p course ty) g).edgeType q course =
        if q ∈ l then some ty else g.edgeType q course
  | [], g, q => by simp
  | a :: t, g, q => by
    rw [List.foldl_cons, edgeType_edgefold_target course ty t _ q,
      edgeType_addEdge]
    by_cases hqt : q ∈ t
    · rw [if_pos hqt, if_pos (List.mem_cons_of_mem _ hqt)]
    · rw [if_neg hqt]
      by_cases hqa : q = a
      · subst hqa
        rw [if_pos rfl, if_pos (List.mem_cons_self _ _)]
      · rw [if_neg (show ¬ (a, course) = (q, course) by
          intro hc
          exact hqa ((Prod.mk.injEq a course q course ▸ hc).1.symm))]
        rw [if_neg (show ¬ q ∈ a :: t by
          intro hc
          rcases List.mem_cons.mp hc with h1 | h1
          · exact hqa h1
          · exact hqt h1)]

theorem edgeType_edgefold_other (course ty c : String) (hne : ¬ course = c) :
    ∀ (l : List String) (g : Graph) (q : String),
      (l.foldl (fun G p => G.addEdge p course ty) g).edgeType q c =
        g.edgeType q c
  | [], _, _ => rfl
  | a :: t, g, q => by
    rw [List.foldl_cons, edgeType_edgefold_other course ty c hne t _ q,
      edgeType_addEdge]
    rw [if_neg (by
      intro hc
      exact hne (Prod.mk.injEq a course q c ▸ hc).2)]

theorem edgeType_buildStep_self (g : Graph) (e : String × CourseInfo)
    (q : String) (hg : g.edgeType q e.1 = none) :
    (buildStep g e).edgeType q e.1 =
      (if q ∈ e.2.corerequisites then some "corequisite"
       else if q ∈ e.2.prerequisites then some "prerequisite"
       else none) := by
  unfold buildStep
  rw [edgeType_edgefold_target]
  by_cases h1 : q ∈ e.2.corerequisites
  · rw [if_pos h1, if_pos h1]
  · rw [if_neg h1, if_neg h1, edgeType_edgefold_target]
    by_cases h2 : q ∈ e.2.prerequisites
    · rw [if_pos h2, if_pos h2]
    · rw [if_neg h2, if_neg h2]
      exact hg

theorem edgeType_buildStep_other (g : Graph) (e : String × CourseInfo)
    (c q : String) (hne : ¬ e.1 = c) :
    (buildStep g e).edgeType q c = g.edgeType q c := by
  unfold buildStep
  rw [edgeType_edgefold_other _ _ _ hne, edgeType_edgefold_other _ _ _ hne]
  rfl

theorem edgeType_buildfold_other (c : String) :
    ∀ (l : List (String × CourseInfo)) (g : Graph) (q : String),
      (∀ e ∈ l, ¬ e.1 = c) →
      (l.foldl buildStep g).edgeType q c = g.edgeType q c
  | [], _, _, _ => rfl
  | e :: t, g, q, hl => by
    rw [List.foldl_cons,
      edgeType_buildfold_other c t _ q
        (fun x hx => hl x (List.mem_cons_of_mem _ hx)),
      edgeType_buildStep_other g e c q (hl e (List.mem_cons_self _ _))]

/-! ### Claim theorems -/

/-- C9 counterexample: on the malformed dataset `c9bad` (course `X` with both
`credits` and `semester` missing) graph construction does NOT fail with a
data-integrity error — it succeeds, producing the node `X` with both
attributes defaulted to `0`.  This falsifies the claim that construction
"fails if and only if the input dataset is malformed". -/
theorem C9_build_counterexample :
    dataset_malformed c9bad = true ∧
      build_curriculum_graph c9bad = ⟨["X"], [("X", 0, 0)], []⟩ := by
  constructor
  · rfl
  · rfl

/-- C9 amended: graph construction never fails.  On any dataset with distinct
course names it produces, for each course entry, a node carrying the course's
credits and nominal semester (each defaulted to `0` when the field is
missing), and its incoming dependency edges are exactly the listed ones: a
`corequisite` edge for every listed corequisite and a `prerequisite` edge for
every other listed prerequisite. -/
theorem C9_build_amended (courses : List (String × CourseInfo))
    (hnodup : (courses.map (fun e => e.1)).Nodup)
    (c : String) (info : CourseInfo) (hmem : (c, info) ∈ courses)
    (p : String) :
    c ∈ (build_curriculum_graph courses).nodes ∧
    assocLookup (build_curriculum_graph courses).attrs c =
      some (info.credits.getD 0, info.semester.getD 0) ∧
    (build_curriculum_graph courses).edgeType p c =
      (if p ∈ info.corerequisites then some "corequisite"
       else if p ∈ info.prerequisites then some "prerequisite"
       else none) := by
  obtain ⟨pre, post, rfl⟩ := List.append_of_mem hmem
  rw [List.map_append, List.map_cons] at hnodup
  have hnodup2 := List.nodup_middle.mp hnodup
  have hcnot : c ∉ pre.map (fun e => e.1) ++ post.map (fun e => e.1) :=
    (List.nodup_cons.mp hnodup2).1
  have hpre : ∀ e ∈ pre, ¬ e.1 = c := by
    intro e he h1
    exact hcnot (List.mem_append_left _ (h1 ▸ List.mem_map_of_mem _ he))
  have hpost : ∀ e ∈ post, ¬ e.1 = c := by
    intro e he h1
    exact hcnot (List.mem_append_right _ (h1 ▸ List.mem_map_of_mem _ he))
  rw [build_eq_foldl, List.foldl_append, List.foldl_cons]
  refine ⟨?_, ?_, ?_⟩
  · apply mem_nodes_buildfold
    unfold buildStep
    apply mem_nodes_edgefold
    apply mem_nodes_edgefold
    exact self_mem_nodes_addNode (pre.foldl buildStep ⟨[], [], []⟩) c _ _
  · rw [attrs_buildfold_other c post _ hpost, attrs_buildStep]
    show assocLookup
      (assocInsert (pre.foldl buildStep ⟨[], [], []⟩).attrs c
        (info.credits.getD 0, info.semester.getD 0)) c =
      some (info.credits.getD 0, info.semester.getD 0)
    exact assocLookup_insert_self _ _ _
  · rw [edgeType_buildfold_other c post _ p hpost]
    have hnone : (pre.foldl buildStep ⟨[], [], []⟩).edgeType p c = none := by
      rw [edgeType_buildfold_other c pre _ p hpre]
      rfl
    exact edgeType_buildStep_self (pre.foldl buildStep ⟨[], [], []⟩)
      (c, info) p hnone

/-- C9 witness: the amended theorem applied to the concrete dataset `c9ok`,
whose single course `B` has credits 2, semester 1 and the prerequisite `Q`. -/
theorem C9_build_amended_witness :
    "B" ∈ (build_curriculum_graph c9ok).nodes ∧
    assocLookup (build_curriculum_graph c9ok).attrs "B" = some (2, 1) ∧
    (build_curriculum_graph c9ok).edgeType "Q" "B" =
      (if "Q" ∈ ([] : List String) then some "corequisite"
       else if "Q" ∈ ["Q"] then some "prerequisite"
       else none) :=
  C9_build_amended c9ok (by decide) "B" ⟨some 2, some 1, ["Q"], []⟩
    (by decide) "Q"

theorem cap_fold (cps : Nat → Nat) (sopts : Nat → Option SemesterOptions) :
    ∀ (range : List Nat) (acc : List (Nat × Int)) (s : Nat),
      (assocLookup acc s = some (capacity_amended cps sopts s) ∨ s ∈ range) →
      assocLookup
        (range.foldl
          (fun capacities s =>
            let base : Int := cps (min s 10)
            let opts := sopts s
            let cap : Int :=
              if ((opts.map (fun o => o.is_half_time)).getD false) then
                max 0 (base / 2 - 1)
              else base
            let extra : Int := (opts.map (fun o => o.extra_credits)).getD 0
            assocInsert capacities s (max 0 (cap + extra))) acc) s
        = some (capacity_amended cps sopts s)
  | [], acc, s, h => by
    rcases h with h | h
    · exact h
    · simp at h
  | r :: t, acc, s, h => by
    rw [List.foldl_cons]
    apply cap_fold cps sopts t
    by_cases hrs : r = s
    · subst hrs
      left
      show assocLookup (assocInsert acc r (capacity_amended cps sopts r)) r =
        some (capacity_amended cps sopts r)
      exact assocLookup_insert_self _ _ _
    · rcases h with h | h
      · left
        show assocLookup (assocInsert acc r (capacity_amended cps sopts r)) s =
          some (capacity_amended cps sopts s)
        rw [assocLookup_insert_ne _ _ _ _ hrs]
        exact h
      · rcases List.mem_cons.mp h with h1 | h1
        · exact absurd h1.symm hrs
        · exact Or.inr h1

/-- C2 counterexample: with a 19-credit base capacity and an override buying
10 extra credits at full load, the code computes a capacity of 29 for
semester 1, while the formula stated by the claim caps the result at 25 —
the code applies no 25-credit ceiling (and no reduced-load clamp on the
extra credits). -/
theorem C2_capacity_formula_counterexample :
    assocLookup (_build_capacity_by_semester c2cps c2opts [1]) 1 ≠
      some (capacity_claimed c2cps c2opts 1) := by decide

/-- C2 amended: for every semester of the range, the capacity table built by
`_build_capacity_by_semester` holds the base per-nominal-semester capacity
(semester 10's value beyond 10), halved and decreased by one and floored at
zero under reduced load, plus the raw extra capacity (no clamp), floored at
zero (no 25-credit ceiling). -/
theorem C2_capacity_formula_amended (cps : Nat → Nat)
    (sopts : Nat → Option SemesterOptions) (range : List Nat) (s : Nat)
    (hs : s ∈ range) :
    assocLookup (_build_capacity_by_semester cps sopts range) s =
      some (capacity_amended cps sopts s) :=
  cap_fold cps sopts range [] s (Or.inr hs)

/-- C2 witness: the amended formula evaluated on the concrete table `c2cps`
with the concrete override `c2opts` at semester 1 of the range `[1, 2]`. -/
theorem C2_capacity_formula_amended_witness :
    (1 ∈ [1, 2]) ∧
      assocLookup (_build_capacity_by_semester c2cps c2opts [1, 2]) 1 =
        some (capacity_amended c2cps c2opts 1) :=
  ⟨by decide, C2_capacity_formula_amended c2cps c2opts [1, 2] 1 (by decide)⟩

/-- C3 counterexample: in the graph `c3G` the course `Inglés 9` has a single
pending corequisite predecessor `C`; the claim says corequisites are ignored,
so `Inglés 9` should be offered, but the code checks ALL predecessors and
returns the empty list. -/
theorem C3_intersemestral_counterexample :
    get_intersemestral_options c3G [] ≠ intersemestral_claimed c3G [] := by
  decide

/-- C3 amended: the option finder returns exactly the not-yet-completed
courses of the fixed name category all of whose predecessors — prerequisite
AND corequisite alike — are completed (a pending corequisite does disqualify
a course). -/
theorem C3_intersemestral_amended (G : Graph) (approved : List String) :
    get_intersemestral_options G approved =
      G.nodes.filter
        (fun course =>
          intersemestral_name_ok course && !(approved.contains course) &&
            (G.predsOf course).all (fun p => approved.contains p)) :=
  inter_options_eq_filter G approved

/-- C4: a course appears in the eligibility result only if all of its
prerequisite predecessors are approved, every corequisite predecessor is
approved or itself in the result, and its nominal semester is within the
window — either it is mandatory-named and within the reference semester
(those are placed at the front: the result is a block of front-inserted
mandatory-on-time courses followed only by appended ones), or it is within
the one-term lookahead. -/
theorem C4_eligibility_sound (G : Graph) (approved : List String) (ref : Nat)
    (c : String) (hc : c ∈ get_available_subjects G approved ref) :
    (prereqPreds G c).all (fun p => approved.contains p) = true ∧
    (coreqPreds G c).all
      (fun p => approved.contains p ||
        (get_available_subjects G approved ref).contains p) = true ∧
    ((is_mandatory_name c = true ∧ G.semesterD c ≤ ref) ∨
      G.semesterD c ≤ ref + 1) ∧
    frontBlockOk G ref (get_available_subjects G approved ref) = true := by
  rcases avail_fold_sound G approved ref G.nodes [] c hc with h1 | h1
  · simp at h1
  · refine ⟨h1.1, h1.2.1, ?_, ?_⟩
    · rcases h1.2.2 with h2 | h2
      · simp only [Bool.and_eq_true, decide_eq_true_eq] at h2
        exact Or.inl h2
      · exact Or.inr h2
    · exact avail_fold_front G approved ref G.nodes [] rfl

/-- C4 witness: the soundness theorem applied to the concrete course `A`,
eligible on `c1G` with an empty completed set at reference semester 1. -/
theorem C4_eligibility_sound_witness :
    ("A" ∈ get_available_subjects c1G [] 1) ∧
      (prereqPreds c1G "A").all
        (fun p => ([] : List String).contains p) = true :=
  ⟨by decide, (C4_eligibility_sound c1G [] 1 "A" (by decide)).1⟩

/-- C5: plan generation terminates — the fallback plan never exceeds the
30-iteration safety cap (at most 30 Semester Records), and whenever an
iteration's winning configuration selects no subjects and no intensive
choice, the loop stops immediately and returns the plan and cost assembled
so far. -/
theorem C5_termination (G : Graph) (approved : List String) (program : String)
    (cps cal : Nat → Nat) (opts : Nat → Option SemesterOptions) :
    (generate_full_plan G approved program cps cal opts).1.length ≤ 30 ∧
    (∀ (req fuel : Nat) (st : GenState),
      (iterBest G req cps st.approved st.sem).subjects = [] →
      (iterBest G req cps st.approved st.sem).intersemestral = none →
      gen_loop G req cps cal (fuel + 1) st = (st.plan, st.cost)) := by
  constructor
  · rw [generate_full_plan_eq]
    by_cases hle : (if program == "Fisioterapia" then 180 else 189) ≤
        listCreditSum G approved
    · rw [if_pos hle]
      simp
    · rw [if_neg hle, gen_plan_eq]
      simp only [List.nil_append]
      exact gen_records_len _ _ _ _ 30 _
  · intro req fuel st h1 h2
    exact gen_loop_stall G req cps cal fuel st h1 h2

/-- C5 witness: on the empty curriculum graph every iteration stalls, and the
loop returns the empty plan at once. -/
theorem C5_termination_witness :
    gen_loop graphEmpty 189 (fun _ => 0) (fun _ => 1) 1 c5st0 = ([], 0) :=
  (C5_termination graphEmpty [] "P" (fun _ => 0) (fun _ => 1)
    (fun _ => none)).2 189 0 c5st0 (by decide) (by decide)

/-- C6: in every generated plan, each Semester Record's subjects have all
their prerequisite predecessors inside the completed list accumulated
strictly before that record (the initial approved courses plus the subjects
and intensive choices of all earlier records). -/
theorem C6_prereq_soundness (G : Graph) (approved : List String)
    (program : String) (cps cal : Nat → Nat)
    (opts : Nat → Option SemesterOptions) :
    prereq_sound G approved
      (generate_full_plan G approved program cps cal opts).1 = true := by
  rw [generate_full_plan_eq]
  by_cases hle : (if program == "Fisioterapia" then 180 else 189) ≤
      listCreditSum G approved
  · rw [if_pos hle]
    rfl
  · rw [if_neg hle, gen_plan_eq]
    simp only [List.nil_append]
    exact gen_records_sound G (if program == "Fisioterapia" then 180 else 189)
      cps cal 30 ⟨[], approved, listCreditSum G approved,
        cal (listCreditSum G approved), 0, []⟩

/-- C7: plan generation is deterministic — two calls with equal graphs,
completed sets, programs, capacity tables, semester-calculation functions and
override maps return identical plans and total costs. -/
theorem C7_determinism (G G' : Graph) (a a' : List String) (p p' : String)
    (cps cps' cal cal' : Nat → Nat) (o o' : Nat → Option SemesterOptions)
    (hG : G = G') (ha : a = a') (hp : p = p') (hcps : cps = cps')
    (hcal : cal = cal') (ho : o = o') :
    generate_full_plan G a p cps cal o =
      generate_full_plan G' a' p' cps' cal' o' := by
  subst hG
  subst ha
  subst hp
  subst hcps
  subst hcal
  subst ho
  rfl

/-- C7 witness: the determinism theorem applied at a concrete input. -/
theorem C7_determinism_witness :
    generate_full_plan c1G [] "P" c1cps (fun _ => 1) (fun _ => none) =
      generate_full_plan c1G [] "P" c1cps (fun _ => 1) (fun _ => none) :=
  C7_determinism c1G c1G [] [] "P" "P" c1cps c1cps (fun _ => 1) (fun _ => 1)
    (fun _ => none) (fun _ => none) rfl rfl rfl rfl rfl rfl

/-- C1 counterexample: on `c1G` (course `A` of 1 credit and `Inglés 1` of 2
credits, 5-credit base capacity), the fallback picks a reduced-load term of
capacity 1 and appends the 2-credit intensive session with no capacity
check: the record has `credits_taken + intensive_credits = 3 > 1`. -/
theorem C1_capacity_counterexample :
    ¬ (∀ r ∈ (generate_full_plan c1G [] "P" c1cps (fun _ => 1)
        (fun _ => none)).1,
        (r.credits + r.intersemestral_credits : Int) ≤
          record_capacity c1cps r) := by decide

/-- C1 amended: in every plan produced by the heuristic path, each record's
`credits_taken` ALONE never exceeds the effective capacity of its term; the
intensive-session credits are recorded separately and are appended without
any capacity check, so the sum may exceed the capacity. -/
theorem C1_capacity_amended (G : Graph) (approved : List String)
    (program : String) (cps cal : Nat → Nat)
    (opts : Nat → Option SemesterOptions) (r : SemesterRecord)
    (hr : r ∈ (generate_full_plan G approved program cps cal opts).1) :
    (r.credits : Int) ≤ record_capacity cps r := by
  rw [generate_full_plan_eq] at hr
  by_cases hle : (if program == "Fisioterapia" then 180 else 189) ≤
      listCreditSum G approved
  · rw [if_pos hle] at hr
    simp at hr
  · rw [if_neg hle, gen_plan_eq] at hr
    simp only [List.nil_append] at hr
    exact gen_records_cap G _ cps cal 30 _ r hr

/-- C1 witness: the amended bound evaluated at the concrete full-load record
the fallback produces on `c8G`. -/
theorem C1_capacity_amended_witness :
    (c8rec ∈ (generate_full_plan c8G [] "P" c8cps (fun _ => 1)
      (fun _ => none)).1) ∧
      ((c8rec.credits : Int) ≤ record_capacity c8cps c8rec) :=
  ⟨by decide, C1_capacity_amended c8G [] "P" c8cps (fun _ => 1)
    (fun _ => none) c8rec (by decide)⟩

/-- C8: the heuristic fallback ignores the override map entirely — with a
reduced-load override for the current semester the returned plan is
identical to the plan without the override; in particular the single record
on `c8G` stays full-load with 8 credits taken against a capacity of 8,
instead of the halved capacity max(0, 8/2 - 1) = 3 the claim requires. -/
theorem C8_override_ignored_eval :
    generate_full_plan c8G [] "P" c8cps (fun _ => 1) c8opts =
      generate_full_plan c8G [] "P" c8cps (fun _ => 1) (fun _ => none) ∧
    (generate_full_plan c8G [] "P" c8cps (fun _ => 1) c8opts).1.map
      (fun r => (r.is_half_time, r.credits, record_capacity c8cps r)) =
      [(false, 8, 8)] := by
  constructor
  · rfl
  · decide

/-- C10: every record of a fallback-generated plan has `extra_credits = 0`,
and carries an intensive-session choice only when its reduced-load flag is
set — regardless of the supplied override map. -/
theorem C10_fallback_flags (G : Graph) (approved : List String)
    (program : String) (cps cal : Nat → Nat)
    (opts : Nat → Option SemesterOptions) :
    ((generate_full_plan G approved program cps cal opts).1).all
      (fun r => (r.extra_credits == 0) &&
        (r.intersemestral.isNone || r.is_half_time)) = true := by
  rw [generate_full_plan_eq]
  by_cases hle : (if program == "Fisioterapia" then 180 else 189) ≤
      listCreditSum G approved
  · rw [if_pos hle]
    rfl
  · rw [if_neg hle, gen_plan_eq]
    simp only [List.nil_append]
    exact gen_records_flags G (if program == "Fisioterapia" then 180 else 189)
      cps cal 30 ⟨[], approved, listCreditSum G approved,
        cal (listCreditSum G approved), 0, []⟩
